import Mathlib

/-!
# Verification of actix-web's connection-info resolver (`src/info.rs`)

A shallow embedding of the `ConnectionInfo` resolver and the `PeerAddr`
extractor.  Header values that reach the parser have already passed
`HeaderValue::to_str`, so they consist of ASCII bytes (`0x09`, `0x20..0x7e`);
on that domain Rust's Unicode `trim`/`to_lowercase` coincide with the
ASCII-level operations modelled here.  Strings are modelled as Lean `String`,
with the character-level work done on the underlying `List Char`.
-/

namespace ActixWeb

/-- Whitespace predicate used by `str::trim` (restricted to the characters
relevant for decoded header values; Rust's `char::is_whitespace` agrees with
this on the ASCII range). -/
def isWs (c : Char) : Bool :=
  c == ' ' || c == '\t' || c == '\n' || c == '\r' || c == '\x0b' || c == '\x0c'

/-- Drop matching characters from the end of a list
(`str::trim_end_matches` / the right half of `str::trim`). -/
def dropEndWhile (p : Char → Bool) (l : List Char) : List Char :=
  (l.reverse.dropWhile p).reverse

/-- `str::trim`: remove whitespace from both ends. -/
def trimL (l : List Char) : List Char :=
  dropEndWhile isWs (l.dropWhile isWs)

/-- Character-level body of `unquote`:
`val.trim().trim_start_matches('"').trim_end_matches('"')`.
`trim_start_matches` / `trim_end_matches` remove the pattern *repeatedly*,
so every leading and every trailing quote goes. -/
def unquoteL (l : List Char) : List Char :=
  dropEndWhile (· == '"') ((trimL l).dropWhile (· == '"'))

/-- Trim whitespace then any quote marks (source `fn unquote`). -/
def unquote (val : String) : String :=
  ⟨unquoteL val.data⟩

/-- ASCII lower-casing (`str::to_lowercase` on decoded header values). -/
def lowerL (l : List Char) : List Char :=
  l.map Char.toLower

/-- `str::split(sep)`: split on every occurrence of `sep`, keeping empty
pieces, and yielding `[[]]` on the empty string (as Rust's `split` does). -/
def splitCh (sep : Char) : List Char → List (List Char)
  | [] => [[]]
  | c :: cs =>
    if c == sep then
      [] :: splitCh sep cs
    else
      match splitCh sep cs with
      | [] => [[c]]
      | g :: gs => (c :: g) :: gs

/-- `pair.splitn(2, '=')` followed by the two `items.next()?` calls: split at
the *first* `'='`; a token with no `'='` yields `none` and is discarded by the
caller's `flat_map`. -/
def splitFirstEq : List Char → Option (List Char × List Char)
  | [] => none
  | c :: cs =>
    if c == '=' then
      some ([], cs)
    else
      match splitFirstEq cs with
      | none => none
      | some (n, v) => some (c :: n, v)

/-- A transport-level socket address, abstracted by its `Display`/`to_string`
rendering (the only way `info.rs` consumes it). -/
structure SockAddr where
  repr : String
deriving DecidableEq, Repr

/-- The projection of `RequestHead` (plus its `Uri`) consumed by `info.rs`.
Header fields hold the decoded string value; `none` means the header is
absent *or* failed `to_str` (the source treats both as absent).
`forwarded` lists the decodable occurrences of the `Forwarded` header in
iteration order (`headers.get_all(FORWARDED)` after the `to_str` filter). -/
structure RequestHead where
  forwarded : List String := []
  x_forwarded_for : Option String := none
  x_forwarded_host : Option String := none
  x_forwarded_proto : Option String := none
  host_header : Option String := none
  uri_scheme : Option String := none
  uri_authority : Option String := none
  peer_addr : Option SockAddr := none
deriving DecidableEq, Repr

/-- Application config: `cfg.secure()` and `cfg.host()`. -/
structure AppConfig where
  secure : Bool := false
  host : String := "localhost:8080"
deriving DecidableEq, Repr

/-- HTTP connection information (the resolved record). -/
structure ConnectionInfo where
  scheme : String
  host : String
  realip_remote_addr : Option String
  remote_addr : Option String
deriving DecidableEq, Repr

/-- Extracts and trims first value for given header name
(source `fn first_header_value`): `hdr.split(',').next()?.trim()`. -/
def first_header_value (h : Option String) : Option String :=
  match h with
  | none => none
  | some hdr =>
    match (splitCh ',' hdr.data).head? with
    | none => none
    | some v => some ⟨trimL v⟩

/-- The token stream of the `Forwarded` loop: all decodable occurrences,
`flat_map` split on `';'`, then `flat_map` split on `','`. -/
def forwardedTokens (vals : List String) : List (List Char) :=
  ((vals.map String.data).flatMap (splitCh ';')).flatMap (splitCh ',')

/-- Loop state of `ConnectionInfo::new`: the three `Option` locals. -/
structure FwdAcc where
  host : Option String := none
  scheme : Option String := none
  realip : Option String := none
deriving DecidableEq, Repr

/-- One iteration of the `Forwarded` loop: trim the token, split at the first
`'='` (discarding the token if there is none), then dispatch on the trimmed,
lower-cased name with `get_or_insert_with` (first occurrence wins).  `"by"`
and unknown names fall through to `continue`. -/
def processToken (acc : FwdAcc) (pair : List Char) : FwdAcc :=
  match splitFirstEq (trimL pair) with
  | none => acc
  | some (name, val) =>
    let n := lowerL (trimL name)
    if n = "for".data then
      match acc.realip with
      | some _ => acc
      | none => { acc with realip := some ⟨unquoteL val⟩ }
    else if n = "proto".data then
      match acc.scheme with
      | some _ => acc
      | none => { acc with scheme := some ⟨unquoteL val⟩ }
    else if n = "host".data then
      match acc.host with
      | some _ => acc
      | none => { acc with host := some ⟨unquoteL val⟩ }
    else
      acc

/-- `ConnectionInfo::new`: run the `Forwarded` loop, then resolve each field
through its `or_else` chain exactly as the source does. -/
def ConnectionInfo.new (req : RequestHead) (cfg : AppConfig) : ConnectionInfo :=
  let acc := (forwardedTokens req.forwarded).foldl processToken ⟨none, none, none⟩
  let scheme :=
    (((acc.scheme.or (first_header_value req.x_forwarded_proto)).or
        req.uri_scheme).or (if cfg.secure then some "https" else none)).getD "http"
  let host :=
    (((acc.host.or (first_header_value req.x_forwarded_host)).or
        req.host_header).or req.uri_authority).getD cfg.host
  let realip_remote_addr :=
    acc.realip.or (first_header_value req.x_forwarded_for)
  let remote_addr := req.peer_addr.map SockAddr.repr
  { scheme, host, realip_remote_addr, remote_addr }

/-- `ConnectionInfo::realip_remote_addr()`: the stored proxy-declared address,
falling back to `remote_addr`. -/
def ConnectionInfo.realipRemoteAddr (c : ConnectionInfo) : Option String :=
  c.realip_remote_addr.or c.remote_addr

/-- A typed wrapper for the peer's socket address (source `struct PeerAddr`). -/
structure PeerAddr where
  addr : SockAddr
deriving DecidableEq, Repr

/-- Error of the `PeerAddr` extractor. -/
inductive MissingPeerAddr where
  | mk
deriving DecidableEq, Repr

/-- `<PeerAddr as FromRequest>::from_request`: `ok(PeerAddr(addr))` when a
peer address exists, otherwise `err(MissingPeerAddr)` (after an error log,
a side effect outside this model). -/
def PeerAddr.from_request (req : RequestHead) : Except MissingPeerAddr PeerAddr :=
  match req.peer_addr with
  | some addr => Except.ok ⟨addr⟩
  | none => Except.error MissingPeerAddr.mk

/-- Spec-level reading of one token: the parameter value carried by `tok`
for parameter `name`, if `tok` is well-formed and names that parameter
(names compared after trimming and lower-casing, values unquoted). -/
def parseParam (name : String) (tok : List Char) : Option String :=
  match splitFirstEq (trimL tok) with
  | none => none
  | some (n, v) =>
    if lowerL (trimL n) = name.data then some ⟨unquoteL v⟩ else none

/-- Spec-level "first `name` parameter parsed from the `Forwarded` header":
the first well-formed token of the concatenated stream naming `name`. -/
def firstForwardedParam (name : String) (vals : List String) : Option String :=
  (forwardedTokens vals).findSome? (parseParam name)

theorem option_or_none {α : Type} (o : Option α) : o.or none = o := by
  cases o <;> rfl

theorem option_some_or {α : Type} (a : α) (o : Option α) : (some a).or o = some a :=
  rfl

theorem option_none_or {α : Type} (o : Option α) : Option.or none o = o :=
  rfl

theorem option_or_assoc {α : Type} (a b c : Option α) :
    (a.or b).or c = a.or (b.or c) := by
  cases a <;> rfl

/-- One loop iteration, described field-wise: each field picks up the token's
value for its parameter name unless already set. -/
theorem processToken_eq (acc : FwdAcc) (t : List Char) :
    processToken acc t =
      { host := acc.host.or (parseParam "host" t),
        scheme := acc.scheme.or (parseParam "proto" t),
        realip := acc.realip.or (parseParam "for" t) } := by
  obtain ⟨ah, as, ar⟩ := acc
  unfold processToken parseParam
  cases h : splitFirstEq (trimL t) with
  | none =>
      simp [option_or_none]
  | some nv =>
      obtain ⟨n, v⟩ := nv
      by_cases hfor : lowerL (trimL n) = "for".data
      · have hproto : lowerL (trimL n) ≠ "proto".data := by
          rw [hfor]; decide
        have hhost : lowerL (trimL n) ≠ "host".data := by
          rw [hfor]; decide
        cases ar <;>
          simp [hfor, hproto, hhost, option_or_none, option_some_or, option_none_or]
      · by_cases hproto : lowerL (trimL n) = "proto".data
        · have hhost : lowerL (trimL n) ≠ "host".data := by
            rw [hproto]; decide
          cases as <;>
            simp [hfor, hproto, hhost, option_or_none, option_some_or, option_none_or]
        · by_cases hhost : lowerL (trimL n) = "host".data
          · cases ah <;>
              simp [hfor, hproto, hhost, option_or_none, option_some_or, option_none_or]
          · simp [hfor, hproto, hhost, option_or_none]

/-- The whole loop, described field-wise: starting from `acc`, each field ends
as `acc`'s value if already set, otherwise as the first matching parameter
value in the token stream. -/
theorem foldl_processToken (ts : List (List Char)) (acc : FwdAcc) :
    ts.foldl processToken acc =
      { host := acc.host.or (ts.findSome? (parseParam "host")),
        scheme := acc.scheme.or (ts.findSome? (parseParam "proto")),
        realip := acc.realip.or (ts.findSome? (parseParam "for")) } := by
  induction ts generalizing acc with
  | nil => simp [option_or_none]
  | cons t ts ih =>
      rw [List.foldl_cons, ih, processToken_eq]
      have hcons : ∀ name : String,
          (t :: ts).findSome? (parseParam name) =
            (parseParam name t).or (ts.findSome? (parseParam name)) := by
        intro name
        cases h : parseParam name t <;> simp [List.findSome?_cons, h, Option.or]
      simp [hcons, option_or_assoc]

theorem new_scheme (req : RequestHead) (cfg : AppConfig) :
    (ConnectionInfo.new req cfg).scheme =
      ((((firstForwardedParam "proto" req.forwarded).or
          (first_header_value req.x_forwarded_proto)).or req.uri_scheme).or
        (if cfg.secure then some "https" else none)).getD "http" := by
  simp [ConnectionInfo.new, foldl_processToken, option_none_or, firstForwardedParam]

theorem new_host (req : RequestHead) (cfg : AppConfig) :
    (ConnectionInfo.new req cfg).host =
      ((((firstForwardedParam "host" req.forwarded).or
          (first_header_value req.x_forwarded_host)).or req.host_header).or
        req.uri_authority).getD cfg.host := by
  simp [ConnectionInfo.new, foldl_processToken, option_none_or, firstForwardedParam]

theorem new_realip_field (req : RequestHead) (cfg : AppConfig) :
    (ConnectionInfo.new req cfg).realip_remote_addr =
      (firstForwardedParam "for" req.forwarded).or
        (first_header_value req.x_forwarded_for) := by
  simp [ConnectionInfo.new, foldl_processToken, option_none_or, firstForwardedParam]

theorem new_remote_addr (req : RequestHead) (cfg : AppConfig) :
    (ConnectionInfo.new req cfg).remote_addr = req.peer_addr.map SockAddr.repr := by
  simp [ConnectionInfo.new]

/-- C1: the resolved scheme is the first defined value of the chain
`Forwarded` `proto` → first `X-Forwarded-Proto` value → request-line scheme →
`"https"` when the config flags the connection secure → literal `"http"`; in
particular, with no proxy headers, no request-line scheme and an insecure
connection the scheme is `"http"`. -/
theorem scheme_resolution (req : RequestHead) (cfg : AppConfig) :
    ((ConnectionInfo.new req cfg).scheme =
      match firstForwardedParam "proto" req.forwarded with
      | some v => v
      | none =>
        match first_header_value req.x_forwarded_proto with
        | some v => v
        | none =>
          match req.uri_scheme with
          | some v => v
          | none => if cfg.secure then "https" else "http")
    ∧ (req.forwarded = [] → req.x_forwarded_proto = none → req.uri_scheme = none →
        cfg.secure = false → (ConnectionInfo.new req cfg).scheme = "http") := by
  constructor
  · rw [new_scheme]
    cases firstForwardedParam "proto" req.forwarded <;>
      cases first_header_value req.x_forwarded_proto <;>
        cases req.uri_scheme <;>
          cases cfg.secure <;>
            simp [option_some_or, option_none_or]
  · intro h1 h2 h3 h4
    rw [new_scheme]
    simp [h1, h2, h3, h4, firstForwardedParam, forwardedTokens, first_header_value,
      option_none_or]

/-- Witness for C1: a request with no headers on an insecure connection
resolves scheme `"http"`. -/
theorem scheme_resolution_witness : (ConnectionInfo.new {} {}).scheme = "http" :=
  (scheme_resolution {} {}).2 rfl rfl rfl rfl

/-- C2: the resolved host is the first defined value of the chain
`Forwarded` `host` → first `X-Forwarded-Host` value → `Host` header →
request-line authority → configured default host. -/
theorem host_resolution (req : RequestHead) (cfg : AppConfig) :
    (ConnectionInfo.new req cfg).host =
      match firstForwardedParam "host" req.forwarded with
      | some v => v
      | none =>
        match first_header_value req.x_forwarded_host with
        | some v => v
        | none =>
          match req.host_header with
          | some v => v
          | none =>
            match req.uri_authority with
            | some v => v
            | none => cfg.host := by
  rw [new_host]
  cases firstForwardedParam "host" req.forwarded <;>
    cases first_header_value req.x_forwarded_host <;>
      cases req.host_header <;>
        cases req.uri_authority <;>
          simp [option_some_or, option_none_or]

/-- C3: `realip_remote_addr()` returns the first `Forwarded` `for` value,
else the first `X-Forwarded-For` value, else the stringified transport peer
address, else `None`. -/
theorem realip_resolution (req : RequestHead) (cfg : AppConfig) :
    ConnectionInfo.realipRemoteAddr (ConnectionInfo.new req cfg) =
      match firstForwardedParam "for" req.forwarded with
      | some v => some v
      | none =>
        match first_header_value req.x_forwarded_for with
        | some v => some v
        | none =>
          match req.peer_addr with
          | some a => some a.repr
          | none => none := by
  unfold ConnectionInfo.realipRemoteAddr
  rw [new_realip_field, new_remote_addr]
  cases firstForwardedParam "for" req.forwarded <;>
    cases first_header_value req.x_forwarded_for <;>
      cases req.peer_addr <;>
        simp [option_some_or, option_none_or]

/-- C4: across the whole concatenated token stream, only the first occurrence
of each of `for` / `proto` / `host` is kept; e.g.
`"for=192.0.2.60, for=198.51.100.17"` resolves the client address to the
first value. -/
theorem forwarded_first_occurrence_wins :
    (∀ vals : List String,
      ((forwardedTokens vals).foldl processToken ⟨none, none, none⟩).realip
          = (forwardedTokens vals).findSome? (parseParam "for")
        ∧ ((forwardedTokens vals).foldl processToken ⟨none, none, none⟩).scheme
            = (forwardedTokens vals).findSome? (parseParam "proto")
        ∧ ((forwardedTokens vals).foldl processToken ⟨none, none, none⟩).host
            = (forwardedTokens vals).findSome? (parseParam "host"))
    ∧ ConnectionInfo.realipRemoteAddr
        (ConnectionInfo.new { forwarded := ["for=192.0.2.60, for=198.51.100.17"] } {})
        = some "192.0.2.60" := by
  constructor
  · intro vals
    refine ⟨?_, ?_, ?_⟩ <;> rw [foldl_processToken] <;> simp [option_none_or]
  · decide

theorem findSome?_middle_none {α β : Type} (f : α → Option β) (l1 l2 : List α)
    (t : α) (h : f t = none) :
    (l1 ++ t :: l2).findSome? f = (l1 ++ l2).findSome? f := by
  induction l1 with
  | nil => simp [List.findSome?_cons, h]
  | cons a l ih =>
      cases ha : f a <;> simp [List.findSome?_cons, ha, ih]

/-- C7: a token with no `'='` is discarded without affecting the others:
a token stream containing such a token resolves exactly as the stream with
that token removed, all other request data being equal. -/
theorem malformed_token_skipped (req : RequestHead) (cfg : AppConfig)
    (vals vals' : List String) (ts1 ts2 : List (List Char)) (t : List Char)
    (ht : splitFirstEq (trimL t) = none)
    (h1 : forwardedTokens vals = ts1 ++ t :: ts2)
    (h2 : forwardedTokens vals' = ts1 ++ ts2) :
    ConnectionInfo.new { req with forwarded := vals } cfg
      = ConnectionInfo.new { req with forwarded := vals' } cfg := by
  have hstep : ∀ acc : FwdAcc, processToken acc t = acc := by
    intro acc
    unfold processToken
    rw [ht]
  have hacc :
      (forwardedTokens vals).foldl processToken (⟨none, none, none⟩ : FwdAcc)
        = (forwardedTokens vals').foldl processToken ⟨none, none, none⟩ := by
    rw [h1, h2, List.foldl_append, List.foldl_append, List.foldl_cons, hstep]
  simp only [ConnectionInfo.new]
  rw [hacc]

/-- Witness for C7: dropping the malformed token `" oops"` leaves the
resolution of `"for=1.2.3.4; oops"` unchanged. -/
theorem malformed_token_skipped_witness :
    ConnectionInfo.new { ({} : RequestHead) with forwarded := ["for=1.2.3.4; oops"] } {}
      = ConnectionInfo.new { ({} : RequestHead) with forwarded := ["for=1.2.3.4"] } {} :=
  malformed_token_skipped {} {} _ _ ["for=1.2.3.4".data] [] " oops".data
    (by decide) (by decide) (by decide)

/-- Does this token carry a (well-formed) `by` parameter? -/
def isByParam (t : List Char) : Bool :=
  match splitFirstEq (trimL t) with
  | some (n, _) => lowerL (trimL n) = "by".data
  | none => false

theorem processToken_by (acc : FwdAcc) (t : List Char) (h : isByParam t = true) :
    processToken acc t = acc := by
  unfold isByParam at h
  unfold processToken
  cases ht : splitFirstEq (trimL t) with
  | none => rfl
  | some nv =>
      obtain ⟨n, v⟩ := nv
      rw [ht] at h
      simp only [decide_eq_true_eq] at h
      have hfor : lowerL (trimL n) ≠ "for".data := by rw [h]; decide
      have hproto : lowerL (trimL n) ≠ "proto".data := by rw [h]; decide
      have hhost : lowerL (trimL n) ≠ "host".data := by rw [h]; decide
      simp [hfor, hproto, hhost]

theorem foldl_filter_by (ts : List (List Char)) (acc : FwdAcc) :
    ts.foldl processToken acc
      = (ts.filter (fun t => ! isByParam t)).foldl processToken acc := by
  induction ts generalizing acc with
  | nil => rfl
  | cons t ts ih =>
      cases h : isByParam t with
      | false => simp [List.filter_cons, h, List.foldl_cons, ih]
      | true => simp [List.filter_cons, h, processToken_by _ _ h, ih]

/-- C9: `by` parameters never influence the result — two requests whose
`Forwarded` token streams agree after erasing `by` tokens resolve to the same
`ConnectionInfo`, all other request data being equal. -/
theorem by_never_influences (req : RequestHead) (cfg : AppConfig)
    (vals vals' : List String)
    (h : (forwardedTokens vals).filter (fun t => ! isByParam t)
        = (forwardedTokens vals').filter (fun t => ! isByParam t)) :
    ConnectionInfo.new { req with forwarded := vals } cfg
      = ConnectionInfo.new { req with forwarded := vals' } cfg := by
  have hacc :
      (forwardedTokens vals).foldl processToken (⟨none, none, none⟩ : FwdAcc)
        = (forwardedTokens vals').foldl processToken ⟨none, none, none⟩ := by
    rw [foldl_filter_by, h, ← foldl_filter_by]
  simp only [ConnectionInfo.new]
  rw [hacc]

/-- Witness for C9: adding `by=203.0.113.43` changes nothing. -/
theorem by_never_influences_witness :
    ConnectionInfo.new
        { ({} : RequestHead) with forwarded := ["for=1.2.3.4; by=203.0.113.43"] } {}
      = ConnectionInfo.new { ({} : RequestHead) with forwarded := ["for=1.2.3.4"] } {} :=
  by_never_influences {} {} _ _ (by decide)

/-- C8: the `PeerAddr` extractor fails with `MissingPeerAddr` exactly when the
request has no transport-level peer address, and otherwise returns the address
verbatim wrapped in `PeerAddr`. -/
theorem peer_addr_extraction (req : RequestHead) :
    (PeerAddr.from_request req = Except.error MissingPeerAddr.mk ↔
        req.peer_addr = none)
    ∧ ∀ a : SockAddr, req.peer_addr = some a →
        PeerAddr.from_request req = Except.ok ⟨a⟩ := by
  unfold PeerAddr.from_request
  cases h : req.peer_addr with
  | none => simp
  | some addr => simp

/-- Witness for C8: a concrete peer address is returned verbatim. -/
theorem peer_addr_extraction_witness :
    PeerAddr.from_request { peer_addr := some ⟨"127.0.0.1:8080"⟩ }
      = Except.ok ⟨⟨"127.0.0.1:8080"⟩⟩ :=
  (peer_addr_extraction _).2 _ rfl

/-- C10: a `for` parameter whose value is empty after normalization is stored
as the empty string: `realip_remote_addr()` is `Some("")` and neither
`X-Forwarded-For` nor the peer address is consulted. -/
theorem empty_for_value (req : RequestHead) (cfg : AppConfig)
    (h : firstForwardedParam "for" req.forwarded = some "") :
    (ConnectionInfo.new req cfg).realip_remote_addr = some ""
      ∧ ConnectionInfo.realipRemoteAddr (ConnectionInfo.new req cfg) = some "" := by
  have h1 : (ConnectionInfo.new req cfg).realip_remote_addr = some "" := by
    rw [new_realip_field, h, option_some_or]
  refine ⟨h1, ?_⟩
  unfold ConnectionInfo.realipRemoteAddr
  rw [h1, option_some_or]

/-- Witness for C10: `for=""` wins over a present `X-Forwarded-For` and a
present peer address, storing the empty string. -/
theorem empty_for_value_witness :
    (ConnectionInfo.new
        { forwarded := ["for=\"\""], x_forwarded_for := some "9.9.9.9",
          peer_addr := some ⟨"10.0.0.1:80"⟩ } {}).realip_remote_addr = some ""
    ∧ ConnectionInfo.realipRemoteAddr
        (ConnectionInfo.new
          { forwarded := ["for=\"\""], x_forwarded_for := some "9.9.9.9",
            peer_addr := some ⟨"10.0.0.1:80"⟩ } {}) = some "" :=
  empty_for_value _ {} (by decide)

/-- Strip exactly one leading double quote, if present. -/
def stripOneQuoteStart : List Char → List Char
  | '"' :: cs => cs
  | l => l

/-- Strip exactly one trailing double quote, if present. -/
def stripOneQuoteEnd (l : List Char) : List Char :=
  (stripOneQuoteStart l.reverse).reverse

/-- Value normalization as the claim under test words it (for comparison with
the source's `unquote`): trim whitespace, then strip exactly one layer of
surrounding double-quote characters. -/
def unquoteOneLayer (s : String) : String :=
  ⟨stripOneQuoteEnd (stripOneQuoteStart (trimL s.data))⟩

/-- Counterexample to C5 as stated: on the value `""192.0.2.60""` the code
strips *both* quote layers, while a single-layer strip would leave
`"192.0.2.60"` (with quotes); the resolved client address is the fully
stripped string. -/
theorem unquote_one_layer_counterexample :
    ConnectionInfo.realipRemoteAddr
        (ConnectionInfo.new { forwarded := ["for=\"\"192.0.2.60\"\""] } {})
        = some "192.0.2.60"
    ∧ unquote "\"\"192.0.2.60\"\"" = "192.0.2.60"
    ∧ unquoteOneLayer "\"\"192.0.2.60\"\"" = "\"192.0.2.60\""
    ∧ ("192.0.2.60" : String) ≠ "\"192.0.2.60\"" := by
  decide

theorem head?_dropWhile_ne (p : Char → Bool) (l : List Char) (a : Char)
    (h : (l.dropWhile p).head? = some a) : p a = false := by
  induction l with
  | nil => simp [List.dropWhile] at h
  | cons c cs ih =>
      by_cases hc : p c
      · rw [List.dropWhile_cons_of_pos hc] at h
        exact ih h
      · rw [List.dropWhile_cons_of_neg hc] at h
        simp only [List.head?_cons, Option.some.injEq] at h
        rw [← h]
        exact Bool.eq_false_iff.mpr hc

theorem head?_dropEndWhile (p : Char → Bool) (l : List Char) (a : Char)
    (h : (dropEndWhile p l).head? = some a) : l.head? = some a := by
  have hl : l = (l.reverse.dropWhile p).reverse ++ (l.reverse.takeWhile p).reverse := by
    rw [← List.reverse_append, List.takeWhile_append_dropWhile, List.reverse_reverse]
  unfold dropEndWhile at h
  rw [hl]
  cases hpre : (l.reverse.dropWhile p).reverse with
  | nil => rw [hpre] at h; simp at h
  | cons x xs =>
      rw [hpre] at h
      simp only [List.head?_cons, Option.some.injEq] at h
      simp [h]

theorem quote_takeWhile (l : List Char) :
    l.takeWhile (· == '"') = List.replicate (l.takeWhile (· == '"')).length '"' := by
  apply List.eq_replicate_of_mem
  intro b hb
  have := List.mem_takeWhile_imp hb
  exact eq_of_beq this

theorem exists_quote_decomp (l : List Char) :
    ∃ n m : Nat, l = List.replicate n '"'
      ++ dropEndWhile (· == '"') (l.dropWhile (· == '"'))
      ++ List.replicate m '"' := by
  have hw : ∀ w : List Char,
      w = dropEndWhile (· == '"') w
        ++ List.replicate (w.reverse.takeWhile (· == '"')).length '"' := by
    intro w
    unfold dropEndWhile
    conv_lhs => rw [← List.reverse_reverse w,
      ← List.takeWhile_append_dropWhile (p := (· == '"')) (l := w.reverse)]
    rw [List.reverse_append]
    congr 1
    conv_lhs => rw [quote_takeWhile]
    rw [List.reverse_replicate]
  refine ⟨(l.takeWhile (· == '"')).length,
    ((l.dropWhile (· == '"')).reverse.takeWhile (· == '"')).length, ?_⟩
  rw [List.append_assoc]
  conv_lhs => rw [← List.takeWhile_append_dropWhile (p := (· == '"')) (l := l)]
  congr 1
  · exact quote_takeWhile l
  · exact hw _

/-- The trimmed value decomposes as a run of quotes, the stored core, and a
run of quotes; the stored core never starts or ends with a quote. -/
theorem unquote_decomposition (s : String) :
    (∃ n m : Nat, trimL s.data
        = List.replicate n '"' ++ (unquote s).data ++ List.replicate m '"')
    ∧ (unquote s).data.head? ≠ some '"'
    ∧ (unquote s).data.getLast? ≠ some '"' := by
  have hdata : (unquote s).data = unquoteL s.data := rfl
  refine ⟨?_, ?_, ?_⟩
  · obtain ⟨n, m, hd⟩ := exists_quote_decomp (trimL s.data)
    exact ⟨n, m, hd⟩
  · intro hq
    rw [hdata] at hq
    unfold unquoteL at hq
    have h1 := head?_dropEndWhile _ _ _ hq
    have h2 := head?_dropWhile_ne _ _ _ h1
    simp at h2
  · intro hq
    rw [hdata] at hq
    unfold unquoteL dropEndWhile at hq
    rw [List.getLast?_reverse] at hq
    have h2 := head?_dropWhile_ne _ _ _ hq
    simp at h2

/-- C5 (amended): for every token split at its first `'='`, the name is
matched after trimming and lower-casing (case-insensitive), and the value is
normalized by trimming whitespace and then stripping ALL leading and trailing
double-quote characters (not exactly one layer): the trimmed value is a quote
run, the stored core (which never starts or ends with a quote), and another
quote run. -/
theorem forwarded_param_normalization :
    (∀ s : String, ∃ n m : Nat, trimL s.data
        = List.replicate n '"' ++ (unquote s).data ++ List.replicate m '"')
    ∧ (∀ s : String, (unquote s).data.head? ≠ some '"'
        ∧ (unquote s).data.getLast? ≠ some '"')
    ∧ ConnectionInfo.realipRemoteAddr
        (ConnectionInfo.new { forwarded := ["For=192.0.2.60"] } {})
        = some "192.0.2.60"
    ∧ ConnectionInfo.realipRemoteAddr
        (ConnectionInfo.new { forwarded := ["for=\"192.0.2.60:8080\""] } {})
        = some "192.0.2.60:8080"
    ∧ ConnectionInfo.realipRemoteAddr
        (ConnectionInfo.new { forwarded := ["for= \"\"1.2.3.4\"\" "] } {})
        = some "1.2.3.4" := by
  refine ⟨fun s => (unquote_decomposition s).1,
    fun s => (unquote_decomposition s).2, ?_, ?_, ?_⟩ <;> decide

/-- Counterexample to C6 as stated: `Forwarded: proto=` makes the resolved
scheme the *empty* string, and with no peer address but an `X-Forwarded-For`
header `realip_remote_addr()` is `Some`, not `None`. -/
theorem totality_claim_counterexample :
    (ConnectionInfo.new
        { forwarded := ["proto="], x_forwarded_for := some "1.2.3.4" } {}).scheme = ""
    ∧ (ConnectionInfo.new
        { forwarded := ["proto="], x_forwarded_for := some "1.2.3.4" } {}).remote_addr
        = none
    ∧ ConnectionInfo.realipRemoteAddr
        (ConnectionInfo.new
          { forwarded := ["proto="], x_forwarded_for := some "1.2.3.4" } {})
        = some "1.2.3.4" := by
  decide

/-- C6 (amended): construction is total — it always yields scheme and host
strings, though a proxy header carrying an empty value can make them empty;
when no proxy/request-line source supplies a scheme the literal fallbacks are
non-empty, and when no source supplies a host the configured default is used.
`realip_remote_addr()` yields a value whenever `remote_addr` is present, and
is `None` exactly when both the stored proxy-declared address and
`remote_addr` are absent. -/
theorem totality_amended (req : RequestHead) (cfg : AppConfig) :
    ((ConnectionInfo.new req cfg).remote_addr.isSome →
        (ConnectionInfo.realipRemoteAddr (ConnectionInfo.new req cfg)).isSome)
    ∧ (ConnectionInfo.realipRemoteAddr (ConnectionInfo.new req cfg) = none ↔
        ((ConnectionInfo.new req cfg).realip_remote_addr = none
          ∧ (ConnectionInfo.new req cfg).remote_addr = none))
    ∧ (firstForwardedParam "proto" req.forwarded = none →
        first_header_value req.x_forwarded_proto = none → req.uri_scheme = none →
        (ConnectionInfo.new req cfg).scheme ≠ "")
    ∧ (firstForwardedParam "host" req.forwarded = none →
        first_header_value req.x_forwarded_host = none → req.host_header = none →
        req.uri_authority = none → (ConnectionInfo.new req cfg).host = cfg.host) := by
  refine ⟨?_, ?_, ?_, ?_⟩
  · unfold ConnectionInfo.realipRemoteAddr
    cases (ConnectionInfo.new req cfg).realip_remote_addr <;>
      cases (ConnectionInfo.new req cfg).remote_addr <;>
        simp [option_some_or, option_none_or]
  · unfold ConnectionInfo.realipRemoteAddr
    cases (ConnectionInfo.new req cfg).realip_remote_addr <;>
      cases (ConnectionInfo.new req cfg).remote_addr <;>
        simp [option_some_or, option_none_or]
  · intro h1 h2 h3
    rw [new_scheme, h1, h2, h3]
    cases cfg.secure <;> simp [option_none_or]
  · intro h1 h2 h3 h4
    rw [new_host, h1, h2, h3, h4]
    rfl

/-- Witness for C6 (amended): a bare request with a peer address. -/
theorem totality_amended_witness :
    (ConnectionInfo.realipRemoteAddr
        (ConnectionInfo.new { peer_addr := some ⟨"127.0.0.1:8080"⟩ } {})).isSome
    ∧ (ConnectionInfo.new { peer_addr := some ⟨"127.0.0.1:8080"⟩ } {}).scheme ≠ ""
    ∧ (ConnectionInfo.new { peer_addr := some ⟨"127.0.0.1:8080"⟩ } {}).host
        = "localhost:8080" :=
  ⟨(totality_amended _ {}).1 (by decide),
    (totality_amended _ {}).2.2.1 (by decide) rfl rfl,
    (totality_amended _ {}).2.2.2 (by decide) rfl rfl rfl⟩

end ActixWeb
